import Mathlib

/-!
# Verification of the PNG chunk-type tag component (`src/chunk_type.rs`)

A shallow embedding of the Rust `ChunkType` value type: a wrapper around
four raw bytes with bit-flag classification predicates, an allow-list
membership test, construction from a raw 4-byte array (`TryFrom<[u8; 4]>`)
or from a text string (`FromStr`), and textual rendering (`Display`, via
`String::from_utf8_lossy`).

Bytes are modelled as `Nat` (with `< 256` facts where they matter), strings
as `List Char`; the UTF-8 machinery of the Rust standard library
(`str::as_bytes`, `String::from_utf8_lossy`) is embedded explicitly below.
A `panic` (the `unwrap()` inside `is_valid`) is modelled by `Option`.
-/

namespace Pngme

/-- UTF-8 encoding of a single Unicode scalar value, as Rust's
`char::encode_utf8` produces it: 1 to 4 bytes. -/
def utf8EncodeChar (c : Char) : List Nat :=
  let v := c.toNat
  if v < 0x80 then [v]
  else if v < 0x800 then
    [0xC0 + v / 0x40, 0x80 + v % 0x40]
  else if v < 0x10000 then
    [0xE0 + v / 0x1000, 0x80 + v / 0x40 % 0x40, 0x80 + v % 0x40]
  else
    [0xF0 + v / 0x40000, 0x80 + v / 0x1000 % 0x40, 0x80 + v / 0x40 % 0x40,
      0x80 + v % 0x40]

/-- The UTF-8 byte representation of a string, as `str::as_bytes` exposes it. -/
def utf8Encode (s : List Char) : List Nat :=
  (s.map utf8EncodeChar).flatten

/-- The replacement character U+FFFD substituted for invalid sequences by
`String::from_utf8_lossy`. -/
def replChar : Char := Char.ofNat 0xFFFD

/-- Validity of the second byte of a multi-byte UTF-8 sequence, given the
leading byte: the ranges Rust's UTF-8 validation accepts (they exclude
overlong encodings, surrogates, and values above U+10FFFF). -/
def utf8SecondOK (b0 b1 : Nat) : Prop :=
  if b0 = 0xE0 then 0xA0 ≤ b1 ∧ b1 < 0xC0
  else if b0 = 0xED then 0x80 ≤ b1 ∧ b1 < 0xA0
  else if b0 = 0xF0 then 0x90 ≤ b1 ∧ b1 < 0xC0
  else if b0 = 0xF4 then 0x80 ≤ b1 ∧ b1 < 0x90
  else 0x80 ≤ b1 ∧ b1 < 0xC0

instance (b0 b1 : Nat) : Decidable (utf8SecondOK b0 b1) := by
  unfold utf8SecondOK; exact inferInstance

/-- One step of lossy UTF-8 decoding: from the first byte `b0` and the
remaining bytes `t0`, the decoded character (or U+FFFD for an invalid
maximal subpart) and the bytes still to decode. -/
def utf8Step (b0 : Nat) (t0 : List Nat) : Char × List Nat :=
  if b0 < 0x80 then (Char.ofNat b0, t0)
  else if b0 < 0xC2 then (replChar, t0)
  else if b0 < 0xE0 then
    match t0 with
    | [] => (replChar, [])
    | b1 :: t1 =>
      if 0x80 ≤ b1 ∧ b1 < 0xC0 then
        (Char.ofNat ((b0 - 0xC0) * 0x40 + (b1 - 0x80)), t1)
      else (replChar, b1 :: t1)
  else if b0 < 0xF0 then
    match t0 with
    | [] => (replChar, [])
    | b1 :: t1 =>
      if utf8SecondOK b0 b1 then
        match t1 with
        | [] => (replChar, [])
        | b2 :: t2 =>
          if 0x80 ≤ b2 ∧ b2 < 0xC0 then
            (Char.ofNat ((b0 - 0xE0) * 0x1000 + (b1 - 0x80) * 0x40 + (b2 - 0x80)), t2)
          else (replChar, b2 :: t2)
      else (replChar, b1 :: t1)
  else if b0 < 0xF5 then
    match t0 with
    | [] => (replChar, [])
    | b1 :: t1 =>
      if utf8SecondOK b0 b1 then
        match t1 with
        | [] => (replChar, [])
        | b2 :: t2 =>
          if 0x80 ≤ b2 ∧ b2 < 0xC0 then
            match t2 with
            | [] => (replChar, [])
            | b3 :: t3 =>
              if 0x80 ≤ b3 ∧ b3 < 0xC0 then
                (Char.ofNat ((b0 - 0xF0) * 0x40000 + (b1 - 0x80) * 0x1000 +
                  (b2 - 0x80) * 0x40 + (b3 - 0x80)), t3)
              else (replChar, b3 :: t3)
          else (replChar, b2 :: t2)
      else (replChar, b1 :: t1)
  else (replChar, t0)

theorem utf8Step_rest_length (b0 : Nat) (t0 : List Nat) :
    (utf8Step b0 t0).2.length ≤ t0.length := by
  unfold utf8Step
  repeat' split
  all_goals simp_all
  all_goals omega

/-- Lossy UTF-8 decoding of a byte sequence, as `String::from_utf8_lossy`
performs it: each maximal valid sequence becomes its character, each maximal
invalid subpart becomes U+FFFD. -/
def utf8DecodeLossy : List Nat → List Char
  | [] => []
  | b0 :: t0 => (utf8Step b0 t0).1 :: utf8DecodeLossy (utf8Step b0 t0).2
termination_by l => l.length
decreasing_by
  simp only [List.length_cons]
  exact Nat.lt_succ_of_le (utf8Step_rest_length _ _)

theorem utf8Encode_cons (c : Char) (s : List Char) :
    utf8Encode (c :: s) = utf8EncodeChar c ++ utf8Encode s := by
  simp [utf8Encode]

theorem utf8Step_encodeChar (c : Char) (r : List Nat) :
    ∃ b0 t0, utf8EncodeChar c ++ r = b0 :: t0 ∧ utf8Step b0 t0 = (c, r) := by
  have hv : c.toNat < 0xD800 ∨ (0xDFFF < c.toNat ∧ c.toNat < 0x110000) := c.valid
  by_cases h1 : c.toNat < 0x80
  · refine ⟨c.toNat, r, by simp [utf8EncodeChar, h1], ?_⟩
    simp [utf8Step, h1, Char.ofNat_toNat]
  · by_cases h2 : c.toNat < 0x800
    · refine ⟨0xC0 + c.toNat / 0x40, (0x80 + c.toNat % 0x40) :: r,
        by simp [utf8EncodeChar, h1, h2], ?_⟩
      have c1 : ¬ (0xC0 + c.toNat / 0x40 < 0x80) := by omega
      have c2 : ¬ (0xC0 + c.toNat / 0x40 < 0xC2) := by omega
      have c3 : 0xC0 + c.toNat / 0x40 < 0xE0 := by omega
      have c4 : 0x80 ≤ 0x80 + c.toNat % 0x40 ∧ 0x80 + c.toNat % 0x40 < 0xC0 := by
        omega
      simp only [utf8Step, if_neg c1, if_neg c2, if_pos c3, if_pos c4]
      have hval : (0xC0 + c.toNat / 0x40 - 0xC0) * 0x40 +
          (0x80 + c.toNat % 0x40 - 0x80) = c.toNat := by omega
      rw [hval, Char.ofNat_toNat]
    · by_cases h3 : c.toNat < 0x10000
      · refine ⟨0xE0 + c.toNat / 0x1000,
          (0x80 + c.toNat / 0x40 % 0x40) :: (0x80 + c.toNat % 0x40) :: r,
          by simp [utf8EncodeChar, h1, h2, h3], ?_⟩
        have c1 : ¬ (0xE0 + c.toNat / 0x1000 < 0x80) := by omega
        have c2 : ¬ (0xE0 + c.toNat / 0x1000 < 0xC2) := by omega
        have c3 : ¬ (0xE0 + c.toNat / 0x1000 < 0xE0) := by omega
        have c4 : 0xE0 + c.toNat / 0x1000 < 0xF0 := by omega
        have c5 : utf8SecondOK (0xE0 + c.toNat / 0x1000)
            (0x80 + c.toNat / 0x40 % 0x40) := by
          unfold utf8SecondOK; split_ifs <;> omega
        have c6 : 0x80 ≤ 0x80 + c.toNat % 0x40 ∧ 0x80 + c.toNat % 0x40 < 0xC0 := by
          omega
        simp only [utf8Step, if_neg c1, if_neg c2, if_neg c3, if_pos c4,
          if_pos c5, if_pos c6]
        have hval : (0xE0 + c.toNat / 0x1000 - 0xE0) * 0x1000 +
            (0x80 + c.toNat / 0x40 % 0x40 - 0x80) * 0x40 +
            (0x80 + c.toNat % 0x40 - 0x80) = c.toNat := by omega
        rw [hval, Char.ofNat_toNat]
      · refine ⟨0xF0 + c.toNat / 0x40000,
          (0x80 + c.toNat / 0x1000 % 0x40) :: (0x80 + c.toNat / 0x40 % 0x40) ::
            (0x80 + c.toNat % 0x40) :: r,
          by simp [utf8EncodeChar, h1, h2, h3], ?_⟩
        have c1 : ¬ (0xF0 + c.toNat / 0x40000 < 0x80) := by omega
        have c2 : ¬ (0xF0 + c.toNat / 0x40000 < 0xC2) := by omega
        have c3 : ¬ (0xF0 + c.toNat / 0x40000 < 0xE0) := by omega
        have c4 : ¬ (0xF0 + c.toNat / 0x40000 < 0xF0) := by omega
        have c5 : 0xF0 + c.toNat / 0x40000 < 0xF5 := by omega
        have c6 : utf8SecondOK (0xF0 + c.toNat / 0x40000)
            (0x80 + c.toNat / 0x1000 % 0x40) := by
          unfold utf8SecondOK; split_ifs <;> omega
        have c7 : 0x80 ≤ 0x80 + c.toNat / 0x40 % 0x40 ∧
            0x80 + c.toNat / 0x40 % 0x40 < 0xC0 := by omega
        have c8 : 0x80 ≤ 0x80 + c.toNat % 0x40 ∧ 0x80 + c.toNat % 0x40 < 0xC0 := by
          omega
        simp only [utf8Step, if_neg c1, if_neg c2, if_neg c3, if_neg c4,
          if_pos c5, if_pos c6, if_pos c7, if_pos c8]
        have hval : (0xF0 + c.toNat / 0x40000 - 0xF0) * 0x40000 +
            (0x80 + c.toNat / 0x1000 % 0x40 - 0x80) * 0x1000 +
            (0x80 + c.toNat / 0x40 % 0x40 - 0x80) * 0x40 +
            (0x80 + c.toNat % 0x40 - 0x80) = c.toNat := by omega
        rw [hval, Char.ofNat_toNat]

theorem utf8DecodeLossy_cons (b0 : Nat) (t0 : List Nat) :
    utf8DecodeLossy (b0 :: t0) =
      (utf8Step b0 t0).1 :: utf8DecodeLossy (utf8Step b0 t0).2 := by
  rw [utf8DecodeLossy]

theorem utf8DecodeLossy_encodeChar (c : Char) (r : List Nat) :
    utf8DecodeLossy (utf8EncodeChar c ++ r) = c :: utf8DecodeLossy r := by
  obtain ⟨b0, t0, heq, hstep⟩ := utf8Step_encodeChar c r
  rw [heq, utf8DecodeLossy_cons, hstep]

theorem utf8DecodeLossy_utf8Encode (s : List Char) :
    utf8DecodeLossy (utf8Encode s) = s := by
  induction s with
  | nil => simp [utf8Encode, utf8DecodeLossy]
  | cons c cs ih => rw [utf8Encode_cons, utf8DecodeLossy_encodeChar, ih]

/-- The Rust struct `ChunkType { value: [u8; 4] }`: the fixed-size 4-byte
array is embedded as four byte fields. Derived `PartialEq`/`Eq` is the
derived structural equality. -/
structure ChunkType where
  v0 : Nat
  v1 : Nat
  v2 : Nat
  v3 : Nat
deriving DecidableEq, Repr

namespace ChunkType

/-- `ChunkType::bytes`: returns a copy of the stored 4-byte array. -/
def bytes (t : ChunkType) : List Nat := [t.v0, t.v1, t.v2, t.v3]

/-- `ChunkType::is_critical`: bit 5 of byte 0 unset. -/
def is_critical (t : ChunkType) : Bool := t.v0 &&& (1 <<< 5) == 0

/-- `ChunkType::is_public`: bit 5 of byte 1 unset. -/
def is_public (t : ChunkType) : Bool := t.v1 &&& (1 <<< 5) == 0

/-- `ChunkType::is_reserved_bit_valid`: bit 5 of byte 2 unset. -/
def is_reserved_bit_valid (t : ChunkType) : Bool := t.v2 &&& (1 <<< 5) == 0

/-- `ChunkType::is_safe_to_copy`: bit 5 of byte 3 set. -/
def is_safe_to_copy (t : ChunkType) : Bool := t.v3 &&& (1 <<< 5) != 0

end ChunkType

/-- The error enum `ChunkTypeError` of the source: `SizeError` wraps the
`TryFromSliceError` from a failed `try_into` of a slice into `[u8; 4]`;
`InvalidChunkType` belongs to the commented-out validation path. -/
inductive ChunkTypeError where
  | SizeError
  | InvalidChunkType
deriving DecidableEq, Repr

/-- `TryFrom<[u8; 4]> for ChunkType`: always `Ok`, stores the bytes
verbatim (error type `()`). -/
def ChunkType.try_from (b0 b1 b2 b3 : Nat) : Except Unit ChunkType :=
  .ok ⟨b0, b1, b2, b3⟩

/-- `FromStr for ChunkType`: `s.as_bytes().try_into()` succeeds iff the
UTF-8 byte representation has length exactly 4; any failure is mapped to
`SizeError`. No validity check is performed (that code is commented out). -/
def ChunkType.from_str (s : List Char) : Except ChunkTypeError ChunkType :=
  match utf8Encode s with
  | [b0, b1, b2, b3] => .ok ⟨b0, b1, b2, b3⟩
  | _ => .error .SizeError

/-- The string literals of the allow-list in `ChunkType::is_valid`. -/
def valid_type_strings : List (List Char) :=
  [['I', 'H', 'D', 'R'], ['P', 'L', 'T', 'E'], ['I', 'D', 'A', 'T'],
   ['I', 'E', 'N', 'D'], ['t', 'E', 'X', 't'], ['z', 'T', 'X', 't'],
   ['i', 'T', 'X', 't'], ['p', 'H', 'Y', 's']]

/-- `ChunkType::is_valid`: builds the eight allow-list tags via
`from_str(..).unwrap()` and tests `contains(self)`. The `unwrap` panic is
modelled by `Option`: `none` is a panic, `some b` is a returned `bool`. -/
def ChunkType.is_valid (t : ChunkType) : Option Bool :=
  (valid_type_strings.mapM (fun s => (ChunkType.from_str s).toOption)).map
    (fun valid_types => valid_types.contains t)

/-- `fmt::Display for ChunkType`: renders `String::from_utf8_lossy(&value)`. -/
def ChunkType.to_text (t : ChunkType) : List Char := utf8DecodeLossy t.bytes

theorem ChunkType.bytes_inj (t u : ChunkType) : t.bytes = u.bytes ↔ t = u := by
  cases t; cases u
  simp [ChunkType.bytes]

theorem valid_types_eval :
    valid_type_strings.mapM (fun s => (ChunkType.from_str s).toOption) =
      some [⟨73, 72, 68, 82⟩, ⟨80, 76, 84, 69⟩, ⟨73, 68, 65, 84⟩,
            ⟨73, 69, 78, 68⟩, ⟨116, 69, 88, 116⟩, ⟨122, 84, 88, 116⟩,
            ⟨105, 84, 88, 116⟩, ⟨112, 72, 89, 115⟩] := by decide

theorem is_valid_some_true_iff (t : ChunkType) :
    ChunkType.is_valid t = some true ↔
      t ∈ [⟨73, 72, 68, 82⟩, ⟨80, 76, 84, 69⟩, ⟨73, 68, 65, 84⟩,
           ⟨73, 69, 78, 68⟩, ⟨116, 69, 88, 116⟩, ⟨122, 84, 88, 116⟩,
           ⟨105, 84, 88, 116⟩, ⟨112, 72, 89, 115⟩] := by
  unfold ChunkType.is_valid
  rw [valid_types_eval]
  simp [List.contains]

theorem from_str_to_text (s : List Char) (h : (utf8Encode s).length = 4) :
    ∃ t, ChunkType.from_str s = .ok t ∧ t.bytes = utf8Encode s ∧
      t.to_text = s := by
  rcases hbs : utf8Encode s with _ | ⟨a, _ | ⟨b, _ | ⟨c, _ | ⟨d, _ | ⟨e, l⟩⟩⟩⟩⟩ <;>
    rw [hbs] at h <;> simp at h
  refine ⟨⟨a, b, c, d⟩, ?_, ?_, ?_⟩
  · simp [ChunkType.from_str, hbs]
  · rfl
  · have := utf8DecodeLossy_utf8Encode s
    rw [hbs] at this
    simpa [ChunkType.to_text, ChunkType.bytes] using this

theorem and_bit5_eq_zero_iff (n : Nat) :
    (n &&& (1 <<< 5) = 0) ↔ n.testBit 5 = false := by
  have h : n &&& (1 <<< 5) = (n.testBit 5).toNat * 2 ^ 5 := Nat.and_two_pow n 5
  rw [h]
  cases hb : n.testBit 5 <;> simp

/-- C1: `is_valid` returns `true` (no panic) exactly when the stored 4-byte
value is the byte pattern of one of the eight allow-list tags "IHDR",
"PLTE", "IDAT", "IEND", "tEXt", "zTXt", "iTXt", "pHYs" (exact, case
sensitive); the characterization mentions no bit predicate, so the result
is independent of them. -/
theorem claim_C1 (t : ChunkType) :
    ChunkType.is_valid t = some true ↔
      ∃ v ∈ valid_type_strings, t.bytes = utf8Encode v := by
  rw [is_valid_some_true_iff]
  constructor
  · intro h
    simp only [List.mem_cons, List.not_mem_nil, or_false] at h
    rcases h with h | h | h | h | h | h | h | h <;> subst h
    · exact ⟨['I', 'H', 'D', 'R'], by simp [valid_type_strings], by decide⟩
    · exact ⟨['P', 'L', 'T', 'E'], by simp [valid_type_strings], by decide⟩
    · exact ⟨['I', 'D', 'A', 'T'], by simp [valid_type_strings], by decide⟩
    · exact ⟨['I', 'E', 'N', 'D'], by simp [valid_type_strings], by decide⟩
    · exact ⟨['t', 'E', 'X', 't'], by simp [valid_type_strings], by decide⟩
    · exact ⟨['z', 'T', 'X', 't'], by simp [valid_type_strings], by decide⟩
    · exact ⟨['i', 'T', 'X', 't'], by simp [valid_type_strings], by decide⟩
    · exact ⟨['p', 'H', 'Y', 's'], by simp [valid_type_strings], by decide⟩
  · rintro ⟨v, hv, hb⟩
    fin_cases hv
    · rw [(ChunkType.bytes_inj t ⟨73, 72, 68, 82⟩).mp (by rw [hb]; decide)]
      decide
    · rw [(ChunkType.bytes_inj t ⟨80, 76, 84, 69⟩).mp (by rw [hb]; decide)]
      decide
    · rw [(ChunkType.bytes_inj t ⟨73, 68, 65, 84⟩).mp (by rw [hb]; decide)]
      decide
    · rw [(ChunkType.bytes_inj t ⟨73, 69, 78, 68⟩).mp (by rw [hb]; decide)]
      decide
    · rw [(ChunkType.bytes_inj t ⟨116, 69, 88, 116⟩).mp (by rw [hb]; decide)]
      decide
    · rw [(ChunkType.bytes_inj t ⟨122, 84, 88, 116⟩).mp (by rw [hb]; decide)]
      decide
    · rw [(ChunkType.bytes_inj t ⟨105, 84, 88, 116⟩).mp (by rw [hb]; decide)]
      decide
    · rw [(ChunkType.bytes_inj t ⟨112, 72, 89, 115⟩).mp (by rw [hb]; decide)]
      decide

/-- C1 instantiated: the tag "IHDR" is valid. -/
theorem claim_C1_witness :
    ChunkType.is_valid ⟨73, 72, 68, 82⟩ = some true :=
  (claim_C1 ⟨73, 72, 68, 82⟩).mpr ⟨['I', 'H', 'D', 'R'], by decide, by decide⟩

/-- C2: construction from text fails with `SizeError` exactly when the
UTF-8 byte length of the input differs from 4; on byte length 4 it
succeeds and stores exactly those bytes — no `InvalidChunkType` rejection
occurs. -/
theorem claim_C2 (s : List Char) :
    (ChunkType.from_str s = .error .SizeError ↔ (utf8Encode s).length ≠ 4) ∧
    ((utf8Encode s).length = 4 →
      ∃ t, ChunkType.from_str s = .ok t ∧ t.bytes = utf8Encode s) := by
  rcases hbs : utf8Encode s with _ | ⟨a, _ | ⟨b, _ | ⟨c, _ | ⟨d, _ | ⟨e, l⟩⟩⟩⟩⟩ <;>
    simp [ChunkType.from_str, hbs, ChunkType.bytes]

/-- C2 instantiated: "Ru" (2 bytes) fails with SizeError, "RuSt" (4 bytes)
succeeds and stores bytes 82, 117, 83, 116. -/
theorem claim_C2_witness :
    ChunkType.from_str ['R', 'u'] = .error .SizeError ∧
    ∃ t, ChunkType.from_str ['R', 'u', 'S', 't'] = .ok t ∧
      t.bytes = utf8Encode ['R', 'u', 'S', 't'] :=
  ⟨(claim_C2 ['R', 'u']).1.mpr (by decide),
   (claim_C2 ['R', 'u', 'S', 't']).2 (by decide)⟩

/-- C3: construction from a raw 4-byte array always succeeds and `bytes()`
returns exactly the input bytes (round-trip identity, no validation). -/
theorem claim_C3 (b0 b1 b2 b3 : Nat) (_h0 : b0 < 256) (_h1 : b1 < 256)
    (_h2 : b2 < 256) (_h3 : b3 < 256) :
    ∃ t, ChunkType.try_from b0 b1 b2 b3 = .ok t ∧ t.bytes = [b0, b1, b2, b3] :=
  ⟨⟨b0, b1, b2, b3⟩, rfl, rfl⟩

/-- C3 instantiated at bytes 82, 117, 83, 116. -/
theorem claim_C3_witness :
    ∃ t, ChunkType.try_from 82 117 83 116 = .ok t ∧
      t.bytes = [82, 117, 83, 116] :=
  claim_C3 82 117 83 116 (by decide) (by decide) (by decide) (by decide)

/-- C4: the four classification predicates are exactly bit 5 tests on the
respective byte — unset for `is_critical`, `is_public`,
`is_reserved_bit_valid`, and SET for `is_safe_to_copy`. -/
theorem claim_C4 (t : ChunkType) :
    (t.is_critical = true ↔ t.v0.testBit 5 = false) ∧
    (t.is_public = true ↔ t.v1.testBit 5 = false) ∧
    (t.is_reserved_bit_valid = true ↔ t.v2.testBit 5 = false) ∧
    (t.is_safe_to_copy = true ↔ t.v3.testBit 5 = true) := by
  refine ⟨?_, ?_, ?_, ?_⟩
  · rw [ChunkType.is_critical, beq_iff_eq, and_bit5_eq_zero_iff]
  · rw [ChunkType.is_public, beq_iff_eq, and_bit5_eq_zero_iff]
  · rw [ChunkType.is_reserved_bit_valid, beq_iff_eq, and_bit5_eq_zero_iff]
  · rw [ChunkType.is_safe_to_copy, bne_iff_ne]
    rw [ne_eq, and_bit5_eq_zero_iff]
    simp

/-- C4 instantiated at the tag with bytes 82, 117, 83, 116 ("RuSt"). -/
theorem claim_C4_witness :
    ((⟨82, 117, 83, 116⟩ : ChunkType).is_critical = true ↔
      (82 : Nat).testBit 5 = false) ∧
    ((⟨82, 117, 83, 116⟩ : ChunkType).is_public = true ↔
      (117 : Nat).testBit 5 = false) ∧
    ((⟨82, 117, 83, 116⟩ : ChunkType).is_reserved_bit_valid = true ↔
      (83 : Nat).testBit 5 = false) ∧
    ((⟨82, 117, 83, 116⟩ : ChunkType).is_safe_to_copy = true ↔
      (116 : Nat).testBit 5 = true) :=
  claim_C4 ⟨82, 117, 83, 116⟩

theorem utf8Encode_length_ascii (s : List Char) (h : ∀ c ∈ s, c.toNat < 0x80) :
    (utf8Encode s).length = s.length := by
  induction s with
  | nil => rfl
  | cons c cs ih =>
    rw [utf8Encode_cons]
    have hc : utf8EncodeChar c = [c.toNat] := by
      have := h c (List.mem_cons_self c cs)
      simp [utf8EncodeChar, this]
    rw [hc]
    simp [ih (fun x hx => h x (List.mem_cons_of_mem c hx))]

/-- C5: for any 4-character string of printable ASCII characters,
construction from text succeeds and rendering (`Display`, i.e.
`from_utf8_lossy` of the stored bytes) reproduces the string exactly. -/
theorem claim_C5 (s : List Char) (h4 : s.length = 4)
    (hascii : ∀ c ∈ s, 0x20 ≤ c.toNat ∧ c.toNat ≤ 0x7E) :
    ∃ t, ChunkType.from_str s = .ok t ∧ t.to_text = s := by
  have hlen : (utf8Encode s).length = 4 := by
    rw [utf8Encode_length_ascii s (fun c hc => by
      have := hascii c hc; omega)]
    exact h4
  obtain ⟨t, hok, _, htext⟩ := from_str_to_text s hlen
  exact ⟨t, hok, htext⟩

/-- C5 instantiated at "RuSt". -/
theorem claim_C5_witness :
    ∃ t, ChunkType.from_str ['R', 'u', 'S', 't'] = .ok t ∧
      t.to_text = ['R', 'u', 'S', 't'] :=
  claim_C5 ['R', 'u', 'S', 't'] (by decide) (by decide)

/-- C6: derived structural equality compares exactly the 4 stored bytes,
and a tag built from raw bytes equals a tag built from a string with the
same UTF-8 bytes. -/
theorem claim_C6 :
    (∀ t u : ChunkType, t = u ↔ t.bytes = u.bytes) ∧
    (∀ (b0 b1 b2 b3 : Nat) (s : List Char) (t u : ChunkType),
      utf8Encode s = [b0, b1, b2, b3] →
      ChunkType.try_from b0 b1 b2 b3 = .ok t →
      ChunkType.from_str s = .ok u → t = u) := by
  constructor
  · intro t u
    exact (ChunkType.bytes_inj t u).symm
  · intro b0 b1 b2 b3 s t u hs ht hu
    simp only [ChunkType.try_from, Except.ok.injEq] at ht
    simp only [ChunkType.from_str, hs, Except.ok.injEq] at hu
    rw [← ht, ← hu]

/-- C6 instantiated: bytes 82, 117, 83, 116 via `TryFrom` and "RuSt" via
`FromStr` yield equal tags. -/
theorem claim_C6_witness :
    ((⟨82, 117, 83, 116⟩ : ChunkType) = ⟨82, 117, 83, 116⟩ ↔
      ChunkType.bytes ⟨82, 117, 83, 116⟩ = ChunkType.bytes ⟨82, 117, 83, 116⟩) ∧
    (⟨82, 117, 83, 116⟩ : ChunkType) = ⟨82, 117, 83, 116⟩ :=
  ⟨claim_C6.1 ⟨82, 117, 83, 116⟩ ⟨82, 117, 83, 116⟩,
   claim_C6.2 82 117 83 116 ['R', 'u', 'S', 't'] ⟨82, 117, 83, 116⟩
     ⟨82, 117, 83, 116⟩ (by decide) rfl rfl⟩

/-- C7: the tag with bytes 82, 117, 83, 116 ("RuSt") is critical, not
public, has a valid reserved bit, and is safe to copy. -/
theorem claim_C7 :
    ∃ t, ChunkType.try_from 82 117 83 116 = .ok t ∧
      t.is_critical = true ∧ t.is_public = false ∧
      t.is_reserved_bit_valid = true ∧ t.is_safe_to_copy = true :=
  ⟨⟨82, 117, 83, 116⟩, rfl, by decide, by decide, by decide, by decide⟩

/-- C8: membership in the eight-tag allow-list implies the reserved bit
(bit 5 of byte 2) is unset, although `is_valid` is computed as an
independent membership test. -/
theorem claim_C8 (t : ChunkType) (h : ChunkType.is_valid t = some true) :
    t.is_reserved_bit_valid = true := by
  have hm := (is_valid_some_true_iff t).mp h
  simp only [List.mem_cons, List.not_mem_nil, or_false] at hm
  rcases hm with h' | h' | h' | h' | h' | h' | h' | h' <;> subst h' <;> decide

/-- C8 instantiated at the tag "IHDR". -/
theorem claim_C8_witness :
    ChunkType.is_reserved_bit_valid ⟨73, 72, 68, 82⟩ = true :=
  claim_C8 ⟨73, 72, 68, 82⟩ (by decide)

/-- C9: `from_str` measures UTF-8 bytes, not characters: any string whose
UTF-8 encoding is exactly 4 bytes is accepted and rendered back exactly;
no printable-ASCII restriction is needed. -/
theorem claim_C9 (s : List Char) (h4 : (utf8Encode s).length = 4) :
    ∃ t, ChunkType.from_str s = .ok t ∧ t.to_text = s := by
  obtain ⟨t, hok, _, htext⟩ := from_str_to_text s h4
  exact ⟨t, hok, htext⟩

/-- C9 instantiated at "¢¢": 2 characters, 4 UTF-8 bytes — construction
succeeds and rendering reproduces the string. -/
theorem claim_C9_witness :
    (['¢', '¢'] : List Char).length < 4 ∧
    (utf8Encode ['¢', '¢']).length = 4 ∧
    ∃ t, ChunkType.from_str ['¢', '¢'] = .ok t ∧ t.to_text = ['¢', '¢'] :=
  ⟨by decide, by decide, claim_C9 ['¢', '¢'] (by decide)⟩

/-- C10: `is_valid` is total: the internal `unwrap` on each of the eight
allow-list strings never panics (each string is exactly 4 bytes), so
`is_valid` returns a `bool` for every tag. -/
theorem claim_C10 (t : ChunkType) :
    valid_type_strings.all (fun s => ((ChunkType.from_str s).toOption).isSome)
      = true ∧
    ∃ b, ChunkType.is_valid t = some b := by
  refine ⟨by decide, ?_⟩
  unfold ChunkType.is_valid
  rw [valid_types_eval]
  exact ⟨_, rfl⟩

end Pngme
